import Mathlib

/-!
Shallow embedding of the simpleclaw package & skill installation engine:
the marketplace catalog client, the archive-based skill installer, the
install ledger over the persisted configuration value, the sync
reconciler for marketplace skills, and the Google Cloud credential
resolver.  Effectful collaborators (HTTP fetch, archive extraction,
filesystem, child processes) are modelled as explicit environment
values; a thrown JS exception is an `Except.error`.
-/

deriving instance DecidableEq for Except

namespace SimpleClaw

/-! ### JS string and object primitives -/

/-- Substring test on character lists: `strContains needle hay` is true
when `needle` occurs contiguously inside `hay`.  Models the semantics
of JS `hay.includes(needle)`. -/
def strContains (needle : List Char) : List Char → Bool
  | [] => needle.isEmpty
  | c :: rest => needle.isPrefixOf (c :: rest) || strContains needle rest

/-- JS `hay.includes(sub)`. -/
def jsIncludes (hay sub : String) : Bool :=
  strContains sub.toList hay.toList

/-- JS `s.startsWith(pre)`. -/
def jsStartsWith (s pre : String) : Bool :=
  pre.toList.isPrefixOf s.toList

/-- JS `s.toLowerCase()`: case folding, character by character. -/
def jsToLower (s : String) : String := ⟨s.data.map Char.toLower⟩

/-- JS `s.trim()`: strip leading and trailing whitespace. -/
def jsTrim (s : String) : String :=
  ⟨((s.data.dropWhile Char.isWhitespace).reverse.dropWhile Char.isWhitespace).reverse⟩

/-- A JS object with values of type `α`: an insertion-ordered list of
key/value fields, keys unique. -/
abbrev Obj (α : Type) := List (String × α)

/-- JS property read `m[k]`. -/
def objGet {α : Type} (m : Obj α) (k : String) : Option α :=
  (m.find? (fun p => p.1 == k)).map (fun p => p.2)

/-- JS `{...m, [k]: v}`: replace the value in place when the key is
present, otherwise append the new field. -/
def objSet {α : Type} (m : Obj α) (k : String) (v : α) : Obj α :=
  if m.any (fun p => p.1 == k) then
    m.map (fun p => if p.1 == k then (k, v) else p)
  else
    m ++ [(k, v)]

/-- JS `delete m[k]`. -/
def objDelete {α : Type} (m : Obj α) (k : String) : Obj α :=
  m.filter (fun p => p.1 != k)

/-! ### Configuration value and the skill install ledger
(`src/plugins/skill-install.ts`) -/

/-- `SkillInstallRecord` from `config/types.skills.ts`: `installedAt`
is optional in the caller-supplied record and always set in a stored
record. -/
structure SkillInstallRecord where
  source : String
  version : String
  archiveUrl : Option String
  installedAt : Option String
deriving DecidableEq

/-- The `skills` sub-tree of the configuration.  `rest` stands for the
unrelated sibling fields (`allowBundled`, `entries`, ...) that the
ledger must preserve through its spread-copies. -/
structure SkillsConfig where
  rest : Obj String
  installs : Option (Obj SkillInstallRecord)
deriving DecidableEq

/-- The persisted configuration value.  `rest` stands for every
top-level field other than `skills`, preserved by `{...cfg, ...}`. -/
structure SimpleClawConfig where
  rest : Obj String
  skills : Option SkillsConfig
deriving DecidableEq

/-- `recordSkillInstall(cfg, {skillName, ...record})` from
`skill-install.ts`.  `now` is the value of
`new Date().toISOString()` at call time. -/
def recordSkillInstall (now : String) (cfg : SimpleClawConfig)
    (skillName : String) (record : SkillInstallRecord) : SimpleClawConfig :=
  let prior : Obj SkillInstallRecord := ((cfg.skills.bind (fun s => s.installs)).getD [])
  let stamped : SkillInstallRecord :=
    { record with installedAt := some (record.installedAt.getD now) }
  { cfg with
    skills := some
      { rest := (cfg.skills.map (fun s => s.rest)).getD []
        installs := some (objSet prior skillName stamped) } }

/-- `removeSkillInstall(cfg, skillName)` from `skill-install.ts`: the
`installs` field is kept only while it still has keys. -/
def removeSkillInstall (cfg : SimpleClawConfig) (skillName : String) : SimpleClawConfig :=
  let installs := objDelete ((cfg.skills.bind (fun s => s.installs)).getD []) skillName
  { cfg with
    skills := some
      { rest := (cfg.skills.map (fun s => s.rest)).getD []
        installs := if installs.length > 0 then some installs else none } }

/-! ### Skill archive installer (`src/plugins/skill-install.ts`) -/

/-- `resolveGcsUrl` from `skill-install.ts`. -/
def resolveGcsUrl (url : String) : String :=
  if !jsStartsWith url "gs://" then
    url
  else
    "https://storage.googleapis.com/" ++ url.drop "gs://".length

/-- The boolean condition of the first check in `validateSkillName`. -/
def hasInvalidSkillNameShape (name : String) : Bool :=
  name == "" || jsIncludes name "/" || jsIncludes name "\\" || name == "." || name == ".."

/-- `validateSkillName` from `skill-install.ts`; a thrown `Error` is an
`Except.error` carrying the message. -/
def validateSkillName (name : String) : Except String Unit :=
  if hasInvalidSkillNameShape name then
    .error ("Invalid skill name: \"" ++ name ++ "\"")
  else if jsStartsWith name "." then
    .error ("Skill name cannot start with a dot: \"" ++ name ++ "\"")
  else
    .ok ()

/-- Node `path.join(a, b)` for a non-empty base and a second component
that contains no separator and is not `.` or `..` (which
`validateSkillName` guarantees before the join is reached). -/
def pathJoin (a b : String) : String := a ++ "/" ++ b

/-- The HTTP response observed through the guarded fetcher. -/
structure FetchResponse where
  ok : Bool
  status : Nat
  statusText : String
deriving DecidableEq

/-- Outcomes of the effectful collaborators of
`installSkillFromArchiveUrl`, one field per suspend point in source
order; `Except.error` models the step throwing. -/
structure InstallEnv where
  /-- Resolution of `fetchWithSsrFGuard` (an error means the promise rejected). -/
  fetch : Except String FetchResponse
  /-- `response.arrayBuffer()` plus `fs.writeFile` of the archive bytes. -/
  bodyPersist : Except String Unit
  /-- `extractArchive` into the staging directory. -/
  extract : Except String Unit
  /-- Whether `fs.stat` finds `SKILL.md` in the staging directory. -/
  skillMdExists : Bool
  /-- `fs.rm`/`ensureDir`/`fs.cp` that place the staged result at the target. -/
  copyToTarget : Except String Unit

/-- Observable side effects of one `installSkillFromArchiveUrl` call. -/
structure InstallTrace where
  /-- `fetchWithSsrFGuard` was invoked. -/
  fetchInvoked : Bool
  /-- Number of times the `release()` callback ran. -/
  releaseCalls : Nat
  /-- The managed target directory was touched (`fs.rm`/`fs.cp`). -/
  targetMutated : Bool
  /-- The temporary working directory was created. -/
  tmpCreated : Bool
  /-- The temporary working directory was removed again. -/
  tmpCleaned : Bool
deriving DecidableEq

/-- Result type of `installSkillFromArchiveUrl`. -/
inductive SkillInstallResult where
  | ok (skillName targetDir : String)
  | err (error : String)
deriving DecidableEq

structure InstallParams where
  name : String
  archiveUrl : String
  managedSkillsDir : String
deriving DecidableEq

/-- `installSkillFromArchiveUrl` from `skill-install.ts`, paired with
the trace of its observable effects.  The `finally` blocks of the
source are reflected in the trace fields: `release()` runs on every
path after the fetch resolves, and the temp directory is removed on
every path after it was created. -/
def installSkillFromArchiveUrl (env : InstallEnv) (p : InstallParams) :
    SkillInstallResult × InstallTrace :=
  match validateSkillName p.name with
  | .error msg =>
      (.err msg,
       { fetchInvoked := false, releaseCalls := 0, targetMutated := false,
         tmpCreated := false, tmpCleaned := false })
  | .ok _ =>
    let targetDir := pathJoin p.managedSkillsDir p.name
    let _url := resolveGcsUrl p.archiveUrl
    match env.fetch with
    | .error e =>
        (.err e,
         { fetchInvoked := true, releaseCalls := 0, targetMutated := false,
           tmpCreated := true, tmpCleaned := true })
    | .ok response =>
      if !response.ok then
        (.err ("Download failed: " ++ toString response.status ++ " " ++ response.statusText),
         { fetchInvoked := true, releaseCalls := 1, targetMutated := false,
           tmpCreated := true, tmpCleaned := true })
      else
        match env.bodyPersist with
        | .error e =>
            (.err e,
             { fetchInvoked := true, releaseCalls := 1, targetMutated := false,
               tmpCreated := true, tmpCleaned := true })
        | .ok _ =>
          match env.extract with
          | .error e =>
              (.err e,
               { fetchInvoked := true, releaseCalls := 1, targetMutated := false,
                 tmpCreated := true, tmpCleaned := true })
          | .ok _ =>
            if !env.skillMdExists then
              (.err "Archive does not contain a SKILL.md file. Not a valid skill package.",
               { fetchInvoked := true, releaseCalls := 1, targetMutated := false,
                 tmpCreated := true, tmpCleaned := true })
            else
              match env.copyToTarget with
              | .error e =>
                  (.err e,
                   { fetchInvoked := true, releaseCalls := 1, targetMutated := true,
                     tmpCreated := true, tmpCleaned := true })
              | .ok _ =>
                  (.ok p.name targetDir,
                   { fetchInvoked := true, releaseCalls := 1, targetMutated := true,
                     tmpCreated := true, tmpCleaned := true })

/-! ### Marketplace catalog client (`src/plugins/marketplace.ts`) -/

structure MarketplacePluginEntry where
  id : String
  name : String
  description : String
  npmSpec : String
  version : String
  kind : String
  tags : Option (List String)
deriving DecidableEq

structure MarketplaceSkillEntry where
  name : String
  description : String
  archiveUrl : String
  version : String
  tags : Option (List String)
deriving DecidableEq

structure MarketplaceCatalog where
  version : Int
  updatedAt : String
  registry : String
  plugins : List MarketplacePluginEntry
  skills : List MarketplaceSkillEntry
deriving DecidableEq

/-- A parsed JSON value, as produced by `res.json()`. -/
inductive Json where
  | null
  | bool (b : Bool)
  | num (n : Int)
  | str (s : String)
  | arr (elems : List Json)
  | obj (fields : List (String × Json))

/-- JS `body && typeof body === "object"`. -/
def jsTruthyObject : Json → Bool
  | .arr _ => true
  | .obj _ => true
  | _ => false

/-- JS property read `j[k]`; `none` is `undefined`. -/
def getProp (j : Json) (k : String) : Option Json :=
  match j with
  | .obj fields => (fields.find? (fun p => p.1 == k)).map (fun p => p.2)
  | _ => none

/-- JS `typeof v === "number"` on a possibly-undefined value. -/
def isNumberValue : Option Json → Bool
  | some (.num _) => true
  | _ => false

/-- JS `Array.isArray(v)` on a possibly-undefined value. -/
def isArrayValue : Option Json → Bool
  | some (.arr _) => true
  | _ => false

/-- `validateCatalog` from `marketplace.ts`; a thrown `Error` is an
`Except.error` carrying the message. -/
def validateCatalog (body : Json) : Except String Unit :=
  if !jsTruthyObject body then
    .error "Invalid catalog: expected an object"
  else if !isNumberValue (getProp body "version") then
    .error "Invalid catalog: missing \x27version\x27 field"
  else if !isArrayValue (getProp body "plugins") then
    .error "Invalid catalog: missing \x27plugins\x27 array"
  else if !isArrayValue (getProp body "skills") then
    .error "Invalid catalog: missing \x27skills\x27 array"
  else
    .ok ()

/-- Outcome of the plain `fetch` inside `fetchCatalog`: the HTTP
response status line and the JSON body the response parses to. -/
structure CatalogFetchEnv where
  ok : Bool
  status : Nat
  statusText : String
  body : Json

/-- `fetchCatalog` from `marketplace.ts`, over an explicit fetch
outcome; errors carry the thrown message. -/
def fetchCatalog (env : CatalogFetchEnv) (catalogUrl : String) : Except String Json :=
  let url := resolveGcsUrl catalogUrl
  if !env.ok then
    .error ("Failed to fetch catalog from " ++ url ++ ": "
      ++ toString env.status ++ " " ++ env.statusText)
  else
    match validateCatalog env.body with
    | .error e => .error e
    | .ok _ => .ok env.body

/-- `searchCatalog` from `marketplace.ts`. -/
def searchCatalog (catalog : MarketplaceCatalog) (query : String) :
    List MarketplacePluginEntry × List MarketplaceSkillEntry :=
  let q := jsToLower query
  let plugins := catalog.plugins.filter (fun p =>
    jsIncludes (jsToLower p.id) q ||
    jsIncludes (jsToLower p.name) q ||
    jsIncludes (jsToLower p.description) q ||
    (p.tags.getD []).any (fun t => jsIncludes (jsToLower t) q))
  let skills := catalog.skills.filter (fun s =>
    jsIncludes (jsToLower s.name) q ||
    jsIncludes (jsToLower s.description) q ||
    (s.tags.getD []).any (fun t => jsIncludes (jsToLower t) q))
  (plugins, skills)

/-! ### Sync reconciler: the skill loop of `handleSync`
(`src/gateway/http-marketplace.ts`) -/

/-- One entry of the `results` array built by `handleSync`.  The
source fields `from` and `to` are spelled `fromVer` and `toVer`
because `from` is a Lean keyword. -/
structure SyncResultEntry where
  id : String
  type : String
  status : String
  fromVer : Option String
  toVer : Option String
  version : Option String
  error : Option String
deriving DecidableEq

/-- The body of the `for (const [skillName, record] of marketplaceSkills)`
loop in `handleSync`.  `doInstall name archiveUrl` is the result of the
`installSkillFromArchiveUrl` call for that skill; the accumulator
carries `(next, changed, results)`. -/
def syncSkillStep (catalogSkills : List MarketplaceSkillEntry)
    (doInstall : String → String → SkillInstallResult) (now : String)
    (acc : SimpleClawConfig × Bool × List SyncResultEntry)
    (item : String × SkillInstallRecord) :
    SimpleClawConfig × Bool × List SyncResultEntry :=
  let (next, changed, results) := acc
  let (skillName, record) := item
  match catalogSkills.find? (fun s => s.name == skillName) with
  | none =>
      (next, changed, results ++
        [{ id := skillName, type := "skill", status := "skipped",
           fromVer := none, toVer := none,
           version := some record.version, error := some "No longer in catalog" }])
  | some catalogEntry =>
    if record.version == catalogEntry.version then
      (next, changed, results ++
        [{ id := skillName, type := "skill", status := "unchanged",
           fromVer := none, toVer := none,
           version := some record.version, error := none }])
    else if catalogEntry.archiveUrl == "" then
      (next, changed, results ++
        [{ id := skillName, type := "skill", status := "skipped",
           fromVer := none, toVer := none,
           version := some record.version, error := some "No archive URL" }])
    else
      match doInstall skillName catalogEntry.archiveUrl with
      | .err e =>
          (next, changed, results ++
            [{ id := skillName, type := "skill", status := "error",
               fromVer := some record.version, toVer := none,
               version := none, error := some e }])
      | .ok _ _ =>
          (recordSkillInstall now next skillName
            { source := "marketplace", version := catalogEntry.version,
              archiveUrl := some catalogEntry.archiveUrl, installedAt := none },
           true,
           results ++
            [{ id := skillName, type := "skill", status := "updated",
               fromVer := some record.version, toVer := some catalogEntry.version,
               version := none, error := none }])

/-- What `handleSync` returns and does after the skill loop:
`wroteConfig` reflects `if (changed) await writeConfigFile(next)`. -/
structure SkillSyncOutput where
  config : SimpleClawConfig
  changed : Bool
  results : List SyncResultEntry
  wroteConfig : Bool

/-- The marketplace-skill portion of `handleSync`: filter the ledger
to marketplace-sourced records, fold the loop body over them, and
persist only when `changed` is set.  `initChanged` is the `changed`
flag handed over by the preceding plugin sync. -/
def handleSyncSkills (catalogSkills : List MarketplaceSkillEntry)
    (doInstall : String → String → SkillInstallResult) (now : String)
    (cfg : SimpleClawConfig) (initChanged : Bool) : SkillSyncOutput :=
  let skillInstalls := (cfg.skills.bind (fun s => s.installs)).getD []
  let marketplaceSkills := skillInstalls.filter (fun p => p.2.source == "marketplace")
  let folded := marketplaceSkills.foldl (syncSkillStep catalogSkills doInstall now)
    (cfg, initChanged, [])
  { config := folded.1, changed := folded.2.1, results := folded.2.2,
    wroteConfig := folded.2.1 }

/-! ### Google Cloud credential resolver (`src/infra/gcloud-auth.ts`) -/

def GCE_METADATA_BASE : String := "http://metadata.google.internal/computeMetadata/v1"

def METADATA_TOKEN_PATH : String := "/instance/service-accounts/default/token"

def METADATA_TIMEOUT_MS : Nat := 3000

/-- An outbound HTTP request as issued by `fetchMetadataToken`. -/
structure HttpRequestSpec where
  url : String
  headers : List (String × String)
  timeoutMs : Nat
deriving DecidableEq

/-- A child-process invocation as issued through `runCommandWithTimeout`. -/
structure CommandSpec where
  argv : List String
  timeoutMs : Nat
deriving DecidableEq

/-- The metadata-server response body field `access_token`; an absent
field reads as the empty string for the `||` fallback. -/
structure MetadataFetchResponse where
  ok : Bool
  status : Nat
  accessToken : String
deriving DecidableEq

/-- Result of `runCommandWithTimeout`. -/
structure CliResult where
  code : Int
  stdout : String
deriving DecidableEq

/-- Outcomes of the two strategies, keyed by the exact request each
strategy issues; `Except.error` models a rejection (network error,
timeout, spawn failure). -/
structure GcloudAuthEnv where
  httpFetch : HttpRequestSpec → Except String MetadataFetchResponse
  runCommand : CommandSpec → Except String CliResult

/-- The request `fetchMetadataToken` issues: token path on the
metadata base, marker header, 3-second timeout. -/
def metadataTokenRequest : HttpRequestSpec :=
  { url := GCE_METADATA_BASE ++ METADATA_TOKEN_PATH
    headers := [("Metadata-Flavor", "Google")]
    timeoutMs := METADATA_TIMEOUT_MS }

/-- `fetchMetadataToken` from `gcloud-auth.ts`. -/
def fetchMetadataToken (env : GcloudAuthEnv) : Option String :=
  match env.httpFetch metadataTokenRequest with
  | .error _ => none
  | .ok res =>
    if !res.ok then none
    else if res.accessToken == "" then none
    else some res.accessToken

/-- The invocation `fetchGcloudCliToken` makes: the gcloud CLI with a
10-second timeout. -/
def gcloudCliCommand : CommandSpec :=
  { argv := ["gcloud", "auth", "print-access-token"], timeoutMs := 10000 }

/-- `fetchGcloudCliToken` from `gcloud-auth.ts`. -/
def fetchGcloudCliToken (env : GcloudAuthEnv) : Option String :=
  match env.runCommand gcloudCliCommand with
  | .error _ => none
  | .ok result =>
    if result.code != 0 then none
    else
      let token := jsTrim result.stdout
      if token == "" then none else some token

/-- `resolveGarAuthToken` from `gcloud-auth.ts`. -/
def resolveGarAuthToken (env : GcloudAuthEnv) : Option String :=
  match fetchMetadataToken env with
  | some metadataToken => some metadataToken
  | none =>
    match fetchGcloudCliToken env with
    | some cliToken => some cliToken
    | none => none

/-! ### Spec-side search predicates

These definitions follow the wording of the search claim — an entry
matches when its id, name, description, or some tag contains the query
case-insensitively — and are compared against `searchCatalog`. -/

/-- The characters of a string after case folding. -/
def lowerChars (s : String) : List Char := (jsToLower s).toList

/-- `hay` contains `q` case-insensitively. -/
def containsCI (hay q : String) : Prop :=
  ∃ l r, lowerChars hay = l ++ lowerChars q ++ r

/-- Spec wording: a catalog extension entry matches a query when its
id, name, description, or some tag contains the query
case-insensitively. -/
def specPluginMatches (query : String) (p : MarketplacePluginEntry) : Prop :=
  containsCI p.id query ∨ containsCI p.name query ∨ containsCI p.description query ∨
    ∃ t ∈ p.tags.getD [], containsCI t query

/-- Spec wording: a catalog skill entry matches a query when its name,
description, or some tag contains the query case-insensitively. -/
def specSkillMatches (query : String) (s : MarketplaceSkillEntry) : Prop :=
  containsCI s.name query ∨ containsCI s.description query ∨
    ∃ t ∈ s.tags.getD [], containsCI t query

/-- The catalog fixture from the marketplace tests, used to exercise
the search characterization at a concrete input. -/
def mockCatalog : MarketplaceCatalog :=
  { version := 1
    updatedAt := "2026-02-25T00:00:00Z"
    registry := "https://us-central1-npm.pkg.dev/project/repo"
    plugins := [
      { id := "discord"
        name := "Discord"
        description := "Discord channel plugin"
        npmSpec := "@simpleclaw/discord"
        version := "1.0.0"
        kind := "channel"
        tags := some ["chat", "messaging"] }]
    skills := [
      { name := "runbook"
        description := "Internal runbook automation"
        archiveUrl := "gs://bucket/runbook.tar.gz"
        version := "1.0.0"
        tags := none }] }

/-! ### Helper lemmas -/

theorem isPrefixOf_eq_true_iff {l₁ l₂ : List Char} :
    l₁.isPrefixOf l₂ = true ↔ ∃ t, l₂ = l₁ ++ t := by
  induction l₁ generalizing l₂ with
  | nil => simp [List.isPrefixOf]
  | cons a as ih =>
    cases l₂ with
    | nil => simp [List.isPrefixOf]
    | cons b bs =>
      simp only [List.isPrefixOf, Bool.and_eq_true, beq_iff_eq, ih, List.cons_append,
        List.cons.injEq]
      constructor
      · rintro ⟨rfl, t, rfl⟩
        exact ⟨t, rfl, rfl⟩
      · rintro ⟨t, rfl, rfl⟩
        exact ⟨rfl, t, rfl⟩

theorem strContains_eq_true_iff {needle hay : List Char} :
    strContains needle hay = true ↔ ∃ l r, hay = l ++ needle ++ r := by
  induction hay with
  | nil =>
    simp only [strContains, List.isEmpty_iff]
    constructor
    · rintro rfl
      exact ⟨[], [], rfl⟩
    · rintro ⟨l, r, h⟩
      rcases List.append_eq_nil.mp h.symm with ⟨h1, h2⟩
      rcases List.append_eq_nil.mp h1 with ⟨-, h3⟩
      exact h3
  | cons c rest ih =>
    simp only [strContains, Bool.or_eq_true, isPrefixOf_eq_true_iff, ih]
    constructor
    · rintro (⟨t, ht⟩ | ⟨l, r, h⟩)
      · exact ⟨[], t, by simpa using ht⟩
      · exact ⟨c :: l, r, by simp [h]⟩
    · rintro ⟨l, r, h⟩
      cases l with
      | nil =>
        left
        exact ⟨r, by simpa using h⟩
      | cons x xs =>
        right
        rcases List.cons.injEq .. ▸ h with ⟨-, h2⟩
        exact ⟨xs, r, by simpa using h2⟩

theorem strContains_nil_needle (hay : List Char) : strContains [] hay = true := by
  cases hay <;> simp [strContains, List.isPrefixOf]

theorem jsIncludes_iff {hay sub : String} :
    jsIncludes hay sub = true ↔ ∃ l r, hay.toList = l ++ sub.toList ++ r := by
  exact strContains_eq_true_iff

theorem containsCI_iff_jsIncludes {hay q : String} :
    containsCI hay q ↔ jsIncludes (jsToLower hay) (jsToLower q) = true := by
  unfold containsCI lowerChars
  exact (jsIncludes_iff).symm

instance (hay q : String) : Decidable (containsCI hay q) :=
  decidable_of_iff _ containsCI_iff_jsIncludes.symm

instance (query : String) (p : MarketplacePluginEntry) :
    Decidable (specPluginMatches query p) := by
  unfold specPluginMatches
  infer_instance

instance (query : String) (s : MarketplaceSkillEntry) :
    Decidable (specSkillMatches query s) := by
  unfold specSkillMatches
  infer_instance

theorem jsIncludes_empty_sub (hay : String) : jsIncludes hay "" = true := by
  have h : ("" : String).toList = [] := rfl
  unfold jsIncludes
  rw [h]
  exact strContains_nil_needle _

theorem objSet_any_key {α : Type} (m : Obj α) (k : String) (v : α) :
    (objSet m k v).any (fun p => p.1 == k) = true := by
  unfold objSet
  split
  · rename_i h
    rw [List.any_eq_true] at h ⊢
    obtain ⟨p, hp, hpk⟩ := h
    refine ⟨(k, v), ?_, by simp⟩
    rw [List.mem_map]
    exact ⟨p, hp, by simp [hpk]⟩
  · simp

theorem map_objSetFun_eq_self {α : Type} {m : Obj α} {k : String} {v : α}
    (h : ∀ p ∈ m, (p.1 == k) = false) :
    m.map (fun p => if p.1 == k then (k, v) else p) = m := by
  calc m.map (fun p => if p.1 == k then (k, v) else p)
      = m.map id := List.map_congr_left (fun p hp => by simp [h p hp])
    _ = m := List.map_id m

theorem objSet_of_no_key {α : Type} {m : Obj α} {k : String} (v : α)
    (h : ∀ p ∈ m, (p.1 == k) = false) :
    objSet m k v = m ++ [(k, v)] := by
  unfold objSet
  rw [if_neg]
  simp only [List.any_eq_true, not_exists]
  intro p
  rw [not_and]
  intro hp
  simp [h p hp]

theorem objSet_of_has_key {α : Type} {m : Obj α} {k : String} (v : α)
    (h : m.any (fun p => p.1 == k) = true) :
    objSet m k v = m.map (fun p => if p.1 == k then (k, v) else p) := by
  unfold objSet
  exact if_pos h

theorem objSet_objSet_same {α : Type} (m : Obj α) (k : String) (v₁ v₂ : α) :
    objSet (objSet m k v₁) k v₂ = objSet m k v₂ := by
  have hstep := objSet_of_has_key (m := objSet m k v₁) (k := k) v₂ (objSet_any_key m k v₁)
  by_cases h : (m.any (fun p => p.1 == k)) = true
  · rw [hstep, objSet_of_has_key v₁ h, objSet_of_has_key v₂ h, List.map_map]
    refine List.map_congr_left (fun p _ => ?_)
    by_cases hpk : (p.1 == k) = true <;> simp [Function.comp, hpk]
  · have hmem : ∀ p ∈ m, (p.1 == k) = false := by
      intro p hp
      by_contra hne
      exact h (List.any_eq_true.mpr ⟨p, hp, by simpa using hne⟩)
    rw [hstep, objSet_of_no_key v₁ hmem, objSet_of_no_key v₂ hmem, List.map_append,
      map_objSetFun_eq_self hmem]
    simp

theorem objDelete_append_single {α : Type} {m : Obj α} {k : String} (v : α)
    (h : ∀ p ∈ m, (p.1 == k) = false) :
    objDelete (m ++ [(k, v)]) k = m := by
  unfold objDelete
  rw [List.filter_append]
  have h₁ : m.filter (fun p => p.1 != k) = m :=
    List.filter_eq_self.mpr (fun p hp => by simp [bne, h p hp])
  have h₂ : ([((k : String), v)]).filter (fun p => p.1 != k) = [] := by simp
  rw [h₁, h₂, List.append_nil]

/-! ### Claim C1: record/remove round trip -/

/-- C1 (counterexample): the claim says the round trip starting from a
configuration with no skills sub-tree yields that same configuration
back.  It does not: `removeSkillInstall` rebuilds the `skills`
container with `installs` omitted, so the round trip on the empty
configuration leaves behind an empty `skills` sub-tree. -/
theorem c1_roundTrip_counterexample :
    removeSkillInstall
        (recordSkillInstall "2026-01-01T00:00:00.000Z"
          { rest := [], skills := none } "my-skill"
          { source := "archive", version := "1.0.0", archiveUrl := none, installedAt := none })
        "my-skill"
      ≠ { rest := [], skills := none } := by decide

/-- C1 (amended): for a configuration that already has a `skills`
sub-tree, whose `installs` map is not the empty container and carries
no record for key `k`, recording then removing `k` restores the
configuration exactly; when `installs` becomes empty the field is
omitted (`none`), not kept as an empty container.  For a configuration
with no `skills` sub-tree the round trip instead adds an empty
`skills` sub-tree and leaves everything else unchanged. -/
theorem c1_roundTrip_amended (rest srest : Obj String)
    (installs : Option (Obj SkillInstallRecord)) (k now : String) (r : SkillInstallRecord)
    (hk : ∀ p ∈ installs.getD [], (p.1 == k) = false)
    (hne : installs ≠ some []) :
    removeSkillInstall
        (recordSkillInstall now ⟨rest, some ⟨srest, installs⟩⟩ k r) k
      = ⟨rest, some ⟨srest, installs⟩⟩ ∧
    ∀ cfg : SimpleClawConfig, cfg.skills = none →
      removeSkillInstall (recordSkillInstall now cfg k r) k
        = { cfg with skills := some { rest := [], installs := none } } := by
  constructor
  · have hset := objSet_of_no_key
      (m := installs.getD []) (k := k)
      ({ r with installedAt := some (r.installedAt.getD now) }) hk
    have hdel := objDelete_append_single
      (m := installs.getD []) (k := k)
      ({ r with installedAt := some (r.installedAt.getD now) }) hk
    cases installs with
    | none =>
      simp only [Option.getD_none] at hset hdel
      simp only [List.nil_append] at hdel
      simp [recordSkillInstall, removeSkillInstall, hset, hdel]
    | some l =>
      have hl : l ≠ [] := fun h => hne (by rw [h])
      have hlen : 0 < l.length := List.length_pos.mpr hl
      simp only [Option.getD_some] at hset hdel
      simp [recordSkillInstall, removeSkillInstall, hset, hdel, hlen]
  · intro cfg hskills
    cases cfg with
    | mk cfgRest cfgSkills =>
      simp only at hskills
      subst hskills
      simp [recordSkillInstall, removeSkillInstall, objSet, objDelete]

/-- C1 (witness): the amended round trip at a concrete configuration
holding an unrelated top-level field, an unrelated skills field and
one pre-existing install record. -/
theorem c1_roundTrip_witness :
    removeSkillInstall
        (recordSkillInstall "2026-02-02T00:00:00.000Z"
          ⟨[("channels", "x")],
           some ⟨[("allowBundled", "github")],
             some [("existing-skill",
               ⟨"marketplace", "1.0.0", none, some "2026-01-01T00:00:00.000Z"⟩)]⟩⟩
          "new-skill" ⟨"archive", "3.0.0", none, none⟩)
        "new-skill"
      = ⟨[("channels", "x")],
         some ⟨[("allowBundled", "github")],
           some [("existing-skill",
             ⟨"marketplace", "1.0.0", none, some "2026-01-01T00:00:00.000Z"⟩)]⟩⟩ :=
  (c1_roundTrip_amended _ _ _ _ _ _ (by decide) (by decide)).1

/-! ### Claim C2: re-recording the same install record -/

/-- C2 (counterexample): the claim says re-applying
`recordSkillInstall` with the same record (no explicit `installedAt`)
preserves the timestamp stored by the first application.  It does not:
the function stamps the caller-supplied record, never the stored one,
so the re-application replaces `installedAt` with the re-application
time. -/
theorem c2_reRecord_counterexample :
    (recordSkillInstall "2026-01-02T00:00:00.000Z"
        (recordSkillInstall "2026-01-01T00:00:00.000Z" ⟨[], none⟩ "my-skill"
          ⟨"marketplace", "1.0.0", none, none⟩)
        "my-skill" ⟨"marketplace", "1.0.0", none, none⟩
      ≠ recordSkillInstall "2026-01-01T00:00:00.000Z" ⟨[], none⟩ "my-skill"
        ⟨"marketplace", "1.0.0", none, none⟩) ∧
    objGet (((recordSkillInstall "2026-01-02T00:00:00.000Z"
        (recordSkillInstall "2026-01-01T00:00:00.000Z" ⟨[], none⟩ "my-skill"
          ⟨"marketplace", "1.0.0", none, none⟩)
        "my-skill" ⟨"marketplace", "1.0.0", none, none⟩).skills.bind
          (fun s => s.installs)).getD []) "my-skill"
      = some { source := "marketplace", version := "1.0.0", archiveUrl := none,
               installedAt := some "2026-01-02T00:00:00.000Z" } := by
  exact ⟨by decide, by decide⟩

/-- C2 (amended): re-applying `recordSkillInstall` with the same
record is idempotent in every field except `installedAt`.  When the
record carries no explicit `installedAt`, the re-application equals a
single application performed at the re-application time (the stored
timestamp is overwritten, not preserved); when the record carries an
explicit `installedAt`, re-application is fully idempotent. -/
theorem c2_reRecord_amended (cfg : SimpleClawConfig) (k now₁ now₂ : String)
    (r : SkillInstallRecord) :
    (r.installedAt = none →
      recordSkillInstall now₂ (recordSkillInstall now₁ cfg k r) k r
        = recordSkillInstall now₂ cfg k r) ∧
    (∀ t, r.installedAt = some t →
      recordSkillInstall now₂ (recordSkillInstall now₁ cfg k r) k r
        = recordSkillInstall now₁ cfg k r) := by
  constructor
  · intro h
    simp [recordSkillInstall, h, objSet_objSet_same]
  · intro t h
    simp [recordSkillInstall, h, objSet_objSet_same]

/-- C2 (witness): the amended statement at a concrete configuration
and record without an explicit timestamp. -/
theorem c2_reRecord_witness :
    recordSkillInstall "2026-01-02T00:00:00.000Z"
        (recordSkillInstall "2026-01-01T00:00:00.000Z" ⟨[], none⟩ "my-skill"
          ⟨"marketplace", "1.0.0", none, none⟩)
        "my-skill" ⟨"marketplace", "1.0.0", none, none⟩
      = recordSkillInstall "2026-01-02T00:00:00.000Z" ⟨[], none⟩ "my-skill"
        ⟨"marketplace", "1.0.0", none, none⟩ :=
  (c2_reRecord_amended _ _ _ _ _).1 rfl

/-! ### Claim C3: name validation happens before any network activity -/

/-- C3: for every name that is empty, contains a path separator,
equals a dot name, or starts with a dot, `installSkillFromArchiveUrl`
fails before the guarded fetch is ever invoked, and the two validation
shapes produce distinct failure messages: the first check yields the
"Invalid skill name" message and the leading-dot check yields the
"cannot start with a dot" message; no message of the first shape ever
equals a message of the second shape. -/
theorem c3_validation_before_network (env : InstallEnv) (p : InstallParams) :
    (hasInvalidSkillNameShape p.name = true →
      installSkillFromArchiveUrl env p =
        (.err ("Invalid skill name: \"" ++ p.name ++ "\""),
         { fetchInvoked := false, releaseCalls := 0, targetMutated := false,
           tmpCreated := false, tmpCleaned := false })) ∧
    (hasInvalidSkillNameShape p.name = false → jsStartsWith p.name "." = true →
      installSkillFromArchiveUrl env p =
        (.err ("Skill name cannot start with a dot: \"" ++ p.name ++ "\""),
         { fetchInvoked := false, releaseCalls := 0, targetMutated := false,
           tmpCreated := false, tmpCleaned := false })) ∧
    (∀ a b : String, ("Invalid skill name: \"" ++ a ++ "\"")
        ≠ ("Skill name cannot start with a dot: \"" ++ b ++ "\"")) := by
  refine ⟨?_, ?_, ?_⟩
  · intro h
    simp [installSkillFromArchiveUrl, validateSkillName, h]
  · intro h1 h2
    simp [installSkillFromArchiveUrl, validateSkillName, h1, h2]
  · intro a b h
    have h2 := congrArg (fun s => s.data.head?) h
    simp only [String.data_append] at h2
    simp at h2

/-- C3 (witness): the name with a path separator is rejected without
the fetch firing, at a concrete environment that would otherwise
succeed. -/
theorem c3_validation_witness :
    installSkillFromArchiveUrl
        { fetch := .ok { ok := true, status := 200, statusText := "OK" },
          bodyPersist := .ok (), extract := .ok (), skillMdExists := true,
          copyToTarget := .ok () }
        { name := "../escape", archiveUrl := "https://example.com/skill.tar.gz",
          managedSkillsDir := "/tmp/skills" } =
      (.err "Invalid skill name: \"../escape\"",
       { fetchInvoked := false, releaseCalls := 0, targetMutated := false,
         tmpCreated := false, tmpCleaned := false }) :=
  (c3_validation_before_network _ _).1 (by decide)

/-! ### Claim C4: missing SKILL.md marker -/

/-- C4: when download and extraction succeed but the staging directory
lacks `SKILL.md`, the installer fails with the content-error message —
which names the marker file and says the archive is not a valid skill
package, and is never equal to a download-failure message — while the
managed target directory is untouched and the temporary directory is
removed like on every other path. -/
theorem c4_missing_marker (env : InstallEnv) (p : InstallParams) (resp : FetchResponse)
    (hv : validateSkillName p.name = .ok ())
    (hf : env.fetch = .ok resp) (hok : resp.ok = true)
    (hb : env.bodyPersist = .ok ()) (he : env.extract = .ok ())
    (hmd : env.skillMdExists = false) :
    installSkillFromArchiveUrl env p =
      (.err "Archive does not contain a SKILL.md file. Not a valid skill package.",
       { fetchInvoked := true, releaseCalls := 1, targetMutated := false,
         tmpCreated := true, tmpCleaned := true }) ∧
    jsIncludes "Archive does not contain a SKILL.md file. Not a valid skill package."
      "SKILL.md" = true ∧
    jsIncludes "Archive does not contain a SKILL.md file. Not a valid skill package."
      "Not a valid skill package" = true ∧
    (∀ (st : Nat) (stTxt : String),
      "Archive does not contain a SKILL.md file. Not a valid skill package."
        ≠ "Download failed: " ++ toString st ++ " " ++ stTxt) := by
  refine ⟨?_, by decide, by decide, ?_⟩
  · simp [installSkillFromArchiveUrl, hv, hf, hok, hb, he, hmd]
  · intro st stTxt h
    have h2 := congrArg (fun s => s.data.head?) h
    simp only [String.data_append] at h2
    simp at h2

/-- C4 (witness): the marker-file failure at a concrete successful
download of an archive without `SKILL.md`. -/
theorem c4_missing_marker_witness :
    installSkillFromArchiveUrl
        { fetch := .ok { ok := true, status := 200, statusText := "OK" },
          bodyPersist := .ok (), extract := .ok (), skillMdExists := false,
          copyToTarget := .ok () }
        { name := "bad-skill", archiveUrl := "https://example.com/skill.tar.gz",
          managedSkillsDir := "/tmp/skills" } =
      (.err "Archive does not contain a SKILL.md file. Not a valid skill package.",
       { fetchInvoked := true, releaseCalls := 1, targetMutated := false,
         tmpCreated := true, tmpCleaned := true }) :=
  (c4_missing_marker _ _ { ok := true, status := 200, statusText := "OK" }
    (by decide) rfl rfl rfl rfl rfl).1

/-! ### Claim C9: release fires exactly once after a resolved fetch -/

/-- C9: on every exit path of `installSkillFromArchiveUrl` that
follows a resolved fetch — success, the non-success-status early
return, a throwing body read, and every later failure — the `release`
callback runs exactly once. -/
theorem c9_release_exactly_once (env : InstallEnv) (p : InstallParams) (resp : FetchResponse)
    (hv : validateSkillName p.name = .ok ()) (hf : env.fetch = .ok resp) :
    (installSkillFromArchiveUrl env p).2.releaseCalls = 1 := by
  simp only [installSkillFromArchiveUrl, hv, hf]
  rcases resp with ⟨ok, status, statusText⟩
  cases ok
  · rfl
  · rcases hb : env.bodyPersist with e | u
    · simp [hb]
    · rcases he : env.extract with e | u
      · simp [hb, he]
      · rcases hmd : env.skillMdExists
        · simp [hb, he, hmd]
        · rcases hc : env.copyToTarget with e | u <;> simp [hb, he, hmd, hc]

/-- C9 (witness): the release counter is one on the early-return path
of a non-success HTTP status. -/
theorem c9_release_witness :
    (installSkillFromArchiveUrl
        { fetch := .ok { ok := false, status := 404, statusText := "Not Found" },
          bodyPersist := .error "unreached", extract := .ok (), skillMdExists := true,
          copyToTarget := .ok () }
        { name := "test-skill", archiveUrl := "https://example.com/skill.tar.gz",
          managedSkillsDir := "/tmp/skills" }).2.releaseCalls = 1 :=
  c9_release_exactly_once _ _ { ok := false, status := 404, statusText := "Not Found" }
    (by decide) rfl

/-! ### Claim C10: every non-rejected name is accepted and used verbatim -/

/-- C10: any non-empty name without path separators that is not a dot
name and does not start with a dot passes `validateSkillName`, and on
a fully successful run the installer uses that name verbatim as the
final path component of the target directory under the managed skills
directory. -/
theorem c10_valid_names_accepted (name : String)
    (h1 : name ≠ "") (h2 : jsIncludes name "/" = false) (h3 : jsIncludes name "\\" = false)
    (h4 : name ≠ ".") (h5 : name ≠ "..") (h6 : jsStartsWith name "." = false) :
    validateSkillName name = .ok () ∧
    ∀ (archiveUrl managedSkillsDir : String) (env : InstallEnv) (resp : FetchResponse),
      env.fetch = .ok resp → resp.ok = true → env.bodyPersist = .ok () →
      env.extract = .ok () → env.skillMdExists = true → env.copyToTarget = .ok () →
      installSkillFromArchiveUrl env
          { name := name, archiveUrl := archiveUrl, managedSkillsDir := managedSkillsDir } =
        (.ok name (managedSkillsDir ++ "/" ++ name),
         { fetchInvoked := true, releaseCalls := 1, targetMutated := true,
           tmpCreated := true, tmpCleaned := true }) := by
  have e1 : (name == "") = false := beq_eq_false_iff_ne.mpr h1
  have e4 : (name == ".") = false := beq_eq_false_iff_ne.mpr h4
  have e5 : (name == "..") = false := beq_eq_false_iff_ne.mpr h5
  have hval : validateSkillName name = .ok () := by
    simp [validateSkillName, hasInvalidSkillNameShape, e1, e4, e5, h2, h3, h6]
  refine ⟨hval, ?_⟩
  intro archiveUrl managedSkillsDir env resp hf hok hb he hmd hc
  simp [installSkillFromArchiveUrl, hval, hf, hok, hb, he, hmd, hc, pathJoin]

/-- C10 (witness): a name with an internal double dot and whitespace
is accepted and appears verbatim in the target directory. -/
theorem c10_valid_names_witness :
    validateSkillName "a..b c" = .ok () ∧
    installSkillFromArchiveUrl
        { fetch := .ok { ok := true, status := 200, statusText := "OK" },
          bodyPersist := .ok (), extract := .ok (), skillMdExists := true,
          copyToTarget := .ok () }
        { name := "a..b c", archiveUrl := "gs://bucket/skill.tar.gz",
          managedSkillsDir := "/managed" } =
      (.ok "a..b c" "/managed/a..b c",
       { fetchInvoked := true, releaseCalls := 1, targetMutated := true,
         tmpCreated := true, tmpCleaned := true }) := by
  have h := c10_valid_names_accepted "a..b c" (by decide) (by decide) (by decide)
    (by decide) (by decide) (by decide)
  exact ⟨h.1, h.2 _ _ _ { ok := true, status := 200, statusText := "OK" }
    rfl rfl rfl rfl rfl rfl⟩

/-! ### Claim C5: sync reconciler classification for marketplace skills -/

/-- C5: each marketplace-sourced skill record is classified into
exactly one outcome — skipped with the no-longer-in-catalog reason
(ledger untouched) when its key is absent from the catalog, unchanged
when versions agree, skipped when versions differ but the catalog
entry has no archive URL, errored with the underlying message (prior
ledger entry untouched) when the re-install fails, and updated with
from/to versions plus a ledger update and the changed flag when it
succeeds — and the configuration is written back exactly when the
changed flag is set.  The source spells the errored class as the
status string `error`. -/
theorem c5_sync_classification (catalogSkills : List MarketplaceSkillEntry)
    (doInstall : String → String → SkillInstallResult) (now : String)
    (next : SimpleClawConfig) (changed : Bool) (results : List SyncResultEntry)
    (skillName : String) (record : SkillInstallRecord) :
    (catalogSkills.find? (fun s => s.name == skillName) = none →
      syncSkillStep catalogSkills doInstall now (next, changed, results) (skillName, record)
        = (next, changed, results ++
            [{ id := skillName, type := "skill", status := "skipped",
               fromVer := none, toVer := none,
               version := some record.version, error := some "No longer in catalog" }])) ∧
    (∀ e, catalogSkills.find? (fun s => s.name == skillName) = some e →
      record.version = e.version →
      syncSkillStep catalogSkills doInstall now (next, changed, results) (skillName, record)
        = (next, changed, results ++
            [{ id := skillName, type := "skill", status := "unchanged",
               fromVer := none, toVer := none,
               version := some record.version, error := none }])) ∧
    (∀ e, catalogSkills.find? (fun s => s.name == skillName) = some e →
      record.version ≠ e.version → e.archiveUrl = "" →
      syncSkillStep catalogSkills doInstall now (next, changed, results) (skillName, record)
        = (next, changed, results ++
            [{ id := skillName, type := "skill", status := "skipped",
               fromVer := none, toVer := none,
               version := some record.version, error := some "No archive URL" }])) ∧
    (∀ e msg, catalogSkills.find? (fun s => s.name == skillName) = some e →
      record.version ≠ e.version → e.archiveUrl ≠ "" →
      doInstall skillName e.archiveUrl = .err msg →
      syncSkillStep catalogSkills doInstall now (next, changed, results) (skillName, record)
        = (next, changed, results ++
            [{ id := skillName, type := "skill", status := "error",
               fromVer := some record.version, toVer := none,
               version := none, error := some msg }])) ∧
    (∀ e sn td, catalogSkills.find? (fun s => s.name == skillName) = some e →
      record.version ≠ e.version → e.archiveUrl ≠ "" →
      doInstall skillName e.archiveUrl = .ok sn td →
      syncSkillStep catalogSkills doInstall now (next, changed, results) (skillName, record)
        = (recordSkillInstall now next skillName
            { source := "marketplace", version := e.version,
              archiveUrl := some e.archiveUrl, installedAt := none },
           true, results ++
            [{ id := skillName, type := "skill", status := "updated",
               fromVer := some record.version, toVer := some e.version,
               version := none, error := none }])) ∧
    (∀ (cfg : SimpleClawConfig) (initChanged : Bool),
      (handleSyncSkills catalogSkills doInstall now cfg initChanged).wroteConfig
        = (handleSyncSkills catalogSkills doInstall now cfg initChanged).changed) := by
  refine ⟨?_, ?_, ?_, ?_, ?_, ?_⟩
  · intro h
    simp [syncSkillStep, h]
  · intro e hfind hv
    have hb : (record.version == e.version) = true := beq_iff_eq.mpr hv
    simp [syncSkillStep, hfind, hb]
  · intro e hfind hv hu
    have hb : (record.version == e.version) = false := beq_eq_false_iff_ne.mpr hv
    have hub : (e.archiveUrl == "") = true := beq_iff_eq.mpr hu
    simp [syncSkillStep, hfind, hb, hub]
  · intro e msg hfind hv hu hinst
    have hb : (record.version == e.version) = false := beq_eq_false_iff_ne.mpr hv
    have hub : (e.archiveUrl == "") = false := beq_eq_false_iff_ne.mpr hu
    simp [syncSkillStep, hfind, hb, hub, hinst]
  · intro e sn td hfind hv hu hinst
    have hb : (record.version == e.version) = false := beq_eq_false_iff_ne.mpr hv
    have hub : (e.archiveUrl == "") = false := beq_eq_false_iff_ne.mpr hu
    simp [syncSkillStep, hfind, hb, hub, hinst]
  · intro cfg initChanged
    rfl

/-- C5 (witness): a marketplace skill whose key is absent from the
(empty) catalog is classified skipped with the no-longer-in-catalog
reason and the ledger is untouched. -/
theorem c5_sync_witness :
    syncSkillStep [] (fun _ _ => .err "unused") "2026-01-01T00:00:00.000Z"
        (⟨[], none⟩, false, []) ("runbook", ⟨"marketplace", "1.0.0", none, some "t0"⟩)
      = (⟨[], none⟩, false,
         [{ id := "runbook", type := "skill", status := "skipped",
            fromVer := none, toVer := none,
            version := some "1.0.0", error := some "No longer in catalog" }]) :=
  (c5_sync_classification [] (fun _ _ => .err "unused") "2026-01-01T00:00:00.000Z"
    ⟨[], none⟩ false [] "runbook" ⟨"marketplace", "1.0.0", none, some "t0"⟩).1 rfl

/-! ### Claim C6: catalog structural validation -/

/-- C6 (counterexample): the claim says a catalog missing the
extensions collection fails with a message containing the word
extensions.  The collection is called `plugins` in the source, and the
failure message says `plugins`, not `extensions`. -/
theorem c6_catalog_counterexample :
    fetchCatalog
        { ok := true, status := 200, statusText := "OK",
          body := Json.obj [("version", Json.num 1), ("skills", Json.arr [])] }
        "https://example.com/catalog.json"
      = .error "Invalid catalog: missing \x27plugins\x27 array" ∧
    jsIncludes "Invalid catalog: missing \x27plugins\x27 array" "extensions" = false := by
  exact ⟨rfl, by decide⟩

/-- C6 (amended): `fetchCatalog` rejects, with a structural-validation
error, any object body whose version is not numeric or whose
plugins/skills collections are not arrays; a missing version gives a
message containing the word version, and a missing plugins collection
(the source name for the extensions collection) gives a message
containing the word plugins. -/
theorem c6_catalog_validation_amended (env : CatalogFetchEnv) (url : String)
    (fields : List (String × Json)) (hok : env.ok = true)
    (hbody : env.body = Json.obj fields) :
    (isNumberValue (getProp env.body "version") = false →
      fetchCatalog env url = .error "Invalid catalog: missing \x27version\x27 field" ∧
      jsIncludes "Invalid catalog: missing \x27version\x27 field" "version" = true) ∧
    (isNumberValue (getProp env.body "version") = true →
      isArrayValue (getProp env.body "plugins") = false →
      fetchCatalog env url = .error "Invalid catalog: missing \x27plugins\x27 array" ∧
      jsIncludes "Invalid catalog: missing \x27plugins\x27 array" "plugins" = true) ∧
    (isNumberValue (getProp env.body "version") = true →
      isArrayValue (getProp env.body "plugins") = true →
      isArrayValue (getProp env.body "skills") = false →
      fetchCatalog env url = .error "Invalid catalog: missing \x27skills\x27 array") := by
  have htr : jsTruthyObject env.body = true := by rw [hbody]; rfl
  refine ⟨?_, ?_, ?_⟩
  · intro h1
    exact ⟨by simp [fetchCatalog, validateCatalog, hok, htr, h1], by decide⟩
  · intro h1 h2
    exact ⟨by simp [fetchCatalog, validateCatalog, hok, htr, h1, h2], by decide⟩
  · intro h1 h2 h3
    simp [fetchCatalog, validateCatalog, hok, htr, h1, h2, h3]

/-- C6 (witness): a catalog body without a version field is rejected
with the version message. -/
theorem c6_catalog_validation_witness :
    fetchCatalog
        { ok := true, status := 200, statusText := "OK",
          body := Json.obj [("plugins", Json.arr []), ("skills", Json.arr [])] }
        "https://example.com/catalog.json"
      = .error "Invalid catalog: missing \x27version\x27 field" ∧
    jsIncludes "Invalid catalog: missing \x27version\x27 field" "version" = true :=
  (c6_catalog_validation_amended
    { ok := true, status := 200, statusText := "OK",
      body := Json.obj [("plugins", Json.arr []), ("skills", Json.arr [])] }
    "https://example.com/catalog.json"
    [("plugins", Json.arr []), ("skills", Json.arr [])] rfl rfl).1 rfl

/-! ### Claim C7: catalog search -/

/-- C7: `searchCatalog` returns exactly the extension (plugin) entries
whose id, name, description, or some tag contains the query
case-insensitively, and exactly the skill entries whose name,
description, or some tag does; the empty query returns every entry of
both collections, and a query matching no entry returns empty lists
for both collections. -/
theorem c7_search_spec (catalog : MarketplaceCatalog) (query : String) :
    (∀ p, p ∈ (searchCatalog catalog query).1 ↔
      p ∈ catalog.plugins ∧ specPluginMatches query p) ∧
    (∀ s, s ∈ (searchCatalog catalog query).2 ↔
      s ∈ catalog.skills ∧ specSkillMatches query s) ∧
    searchCatalog catalog "" = (catalog.plugins, catalog.skills) ∧
    ((∀ p ∈ catalog.plugins, ¬ specPluginMatches query p) →
      (searchCatalog catalog query).1 = []) ∧
    ((∀ s ∈ catalog.skills, ¬ specSkillMatches query s) →
      (searchCatalog catalog query).2 = []) := by
  have hmp : ∀ p : MarketplacePluginEntry,
      (jsIncludes (jsToLower p.id) (jsToLower query) ||
       jsIncludes (jsToLower p.name) (jsToLower query) ||
       jsIncludes (jsToLower p.description) (jsToLower query) ||
       (p.tags.getD []).any (fun t => jsIncludes (jsToLower t) (jsToLower query))) = true
      ↔ specPluginMatches query p := by
    intro p
    simp [specPluginMatches, containsCI_iff_jsIncludes, List.any_eq_true, or_assoc]
  have hms : ∀ s : MarketplaceSkillEntry,
      (jsIncludes (jsToLower s.name) (jsToLower query) ||
       jsIncludes (jsToLower s.description) (jsToLower query) ||
       (s.tags.getD []).any (fun t => jsIncludes (jsToLower t) (jsToLower query))) = true
      ↔ specSkillMatches query s := by
    intro s
    simp [specSkillMatches, containsCI_iff_jsIncludes, List.any_eq_true, or_assoc]
  have hmemP : ∀ p, p ∈ (searchCatalog catalog query).1 ↔
      p ∈ catalog.plugins ∧ specPluginMatches query p := by
    intro p
    simp only [searchCatalog, List.mem_filter]
    exact and_congr_right (fun _ => hmp p)
  have hmemS : ∀ s, s ∈ (searchCatalog catalog query).2 ↔
      s ∈ catalog.skills ∧ specSkillMatches query s := by
    intro s
    simp only [searchCatalog, List.mem_filter]
    exact and_congr_right (fun _ => hms s)
  refine ⟨hmemP, hmemS, ?_, ?_, ?_⟩
  · have h0 : jsToLower "" = "" := rfl
    simp only [searchCatalog, h0]
    refine Prod.ext ?_ ?_
    · exact List.filter_eq_self.mpr (fun p _ => by simp [jsIncludes_empty_sub])
    · exact List.filter_eq_self.mpr (fun s _ => by simp [jsIncludes_empty_sub])
  · intro h
    rw [List.eq_nil_iff_forall_not_mem]
    intro p hp
    rcases (hmemP p).mp hp with ⟨hmem, hspec⟩
    exact h p hmem hspec
  · intro h
    rw [List.eq_nil_iff_forall_not_mem]
    intro s hs
    rcases (hmemS s).mp hs with ⟨hmem, hspec⟩
    exact h s hmem hspec

/-- C7 (witness): on a concrete two-entry catalog, a query matching no
entry returns empty lists for both collections. -/
theorem c7_search_witness :
    (searchCatalog mockCatalog "NONEXISTENT-XYZ").1 = [] ∧
    (searchCatalog mockCatalog "NONEXISTENT-XYZ").2 = [] :=
  ⟨(c7_search_spec mockCatalog "NONEXISTENT-XYZ").2.2.2.1 (by decide),
   (c7_search_spec mockCatalog "NONEXISTENT-XYZ").2.2.2.2 (by decide)⟩

/-! ### Claim C8: credential resolver fallback chain -/

/-- C8: `resolveGarAuthToken` is a total function into an optional
token (the embedding of never-throws): it returns the metadata token
when that strategy yields one, otherwise the CLI token, and `none` —
not an error — when both strategies fail; every returned token is
non-empty; a rejected or non-success metadata fetch and a throwing,
non-zero-exit or empty-stdout CLI run each make their strategy fall
through silently; the metadata request carries the marker header and
the 3-second timeout and the CLI invocation carries the 10-second
timeout. -/
theorem c8_resolveGarAuthToken_spec (env : GcloudAuthEnv) :
    (∀ t, fetchMetadataToken env = some t → resolveGarAuthToken env = some t) ∧
    (∀ t, fetchMetadataToken env = none → fetchGcloudCliToken env = some t →
      resolveGarAuthToken env = some t) ∧
    (fetchMetadataToken env = none → fetchGcloudCliToken env = none →
      resolveGarAuthToken env = none) ∧
    (∀ t, resolveGarAuthToken env = some t → t ≠ "") ∧
    (∀ err, env.httpFetch metadataTokenRequest = .error err →
      fetchMetadataToken env = none) ∧
    (∀ res, env.httpFetch metadataTokenRequest = .ok res → res.ok = false →
      fetchMetadataToken env = none) ∧
    (∀ err, env.runCommand gcloudCliCommand = .error err →
      fetchGcloudCliToken env = none) ∧
    (∀ res, env.runCommand gcloudCliCommand = .ok res → res.code ≠ 0 →
      fetchGcloudCliToken env = none) ∧
    (∀ res, env.runCommand gcloudCliCommand = .ok res → jsTrim res.stdout = "" →
      fetchGcloudCliToken env = none) ∧
    metadataTokenRequest.timeoutMs = 3000 ∧
    metadataTokenRequest.headers = [("Metadata-Flavor", "Google")] ∧
    gcloudCliCommand
      = { argv := ["gcloud", "auth", "print-access-token"], timeoutMs := 10000 } := by
  have hmeta_ne : ∀ t, fetchMetadataToken env = some t → t ≠ "" := by
    intro t h
    unfold fetchMetadataToken at h
    rcases hf : env.httpFetch metadataTokenRequest with e | res
    · rw [hf] at h
      simp at h
    · rw [hf] at h
      simp only at h
      split_ifs at h with h1 h2
      have ht : res.accessToken = t := by simpa using h
      subst ht
      intro he
      exact h2 (by simp [he])
  have hcli_ne : ∀ t, fetchGcloudCliToken env = some t → t ≠ "" := by
    intro t h
    unfold fetchGcloudCliToken at h
    rcases hf : env.runCommand gcloudCliCommand with e | res
    · rw [hf] at h
      simp at h
    · rw [hf] at h
      simp only at h
      split_ifs at h with h1 h2
      have ht : jsTrim res.stdout = t := by simpa using h
      subst ht
      intro he
      exact h2 (by simp [he])
  refine ⟨?_, ?_, ?_, ?_, ?_, ?_, ?_, ?_, ?_, rfl, rfl, rfl⟩
  · intro t h
    simp [resolveGarAuthToken, h]
  · intro t h1 h2
    simp [resolveGarAuthToken, h1, h2]
  · intro h1 h2
    simp [resolveGarAuthToken, h1, h2]
  · intro t h
    rcases hm : fetchMetadataToken env with _ | mt
    · rcases hc : fetchGcloudCliToken env with _ | ct
      · simp [resolveGarAuthToken, hm, hc] at h
      · simp only [resolveGarAuthToken, hm, hc] at h
        cases h
        exact hcli_ne _ hc
    · simp only [resolveGarAuthToken, hm] at h
      cases h
      exact hmeta_ne _ hm
  · intro err h
    simp [fetchMetadataToken, h]
  · intro res h hok
    simp [fetchMetadataToken, h, hok]
  · intro err h
    simp [fetchGcloudCliToken, h]
  · intro res h hc
    have hb : (res.code != 0) = true := bne_iff_ne.mpr hc
    simp [fetchGcloudCliToken, h, hb]
  · intro res h htrim
    simp [fetchGcloudCliToken, h, htrim]

/-- C8 (witness): with the metadata endpoint unreachable and the CLI
printing a padded token with exit code zero, the resolver falls back
to the trimmed CLI token. -/
theorem c8_resolveGarAuthToken_witness :
    resolveGarAuthToken
        { httpFetch := fun _ => .error "ECONNREFUSED",
          runCommand := fun _ => .ok { code := 0, stdout := " ya29.token\n" } }
      = some "ya29.token" :=
  (c8_resolveGarAuthToken_spec
      { httpFetch := fun _ => .error "ECONNREFUSED",
        runCommand := fun _ => .ok { code := 0, stdout := " ya29.token\n" } }).2.1
    "ya29.token" rfl rfl

end SimpleClaw
